import Mathlib

/-!
Verification development for the pulumist dynamic resource deployment engine
(Go sources: `pulumist-go/program_factory.go`, the value codec / FFI boundary
file, and the event callback file).

The embedding is shallow:
* protobuf `*pb.Value` pointers become the inductive `PBValue` (`PBValue.null`
  models a nil pointer, `PBValue.punknown` models a message whose oneof is
  unset or carries an unrecognized variant);
* Go `interface{}` dynamic values that flow through the resolver become the
  inductive `Val`; a `pulumi.Output` is denoted by `Val.voutput r` where `r`
  is the value the output eventually resolves to (the deferred-map combinator
  `ApplyT` is then ordinary function application on `r`);
* `float64` payloads are carried opaquely by their 64-bit pattern (`Nat`),
  since the codec moves them without inspecting them;
* Go maps are modeled as association lists with first-match lookup; a Go map
  assignment `m[k] = v` is modeled by consing `(k, v)` in front, which gives
  the same lookup semantics (overwrite);
* external capabilities (the Pulumi provisioning engine's `RegisterResource`,
  `proto.Marshal` / `proto.Unmarshal`, the filesystem) are oracle parameters.
-/

namespace Pulumist

/-- Wire representation: a `*pb.Value` protobuf pointer.
`null` is a nil pointer; `punknown` models a non-nil message whose oneof is
unset or holds a variant unknown to the decoder (the `default` arm). -/
inductive PBValue where
  | null
  | pstring (s : String)
  | pint (i : Int)
  | pdouble (bits : Nat)
  | pbool (b : Bool)
  | pbytes (bs : List UInt8)
  | plist (values : List PBValue)
  | pmap (fields : List (String × PBValue))
  | punknown

/-- Native representation: the Go `interface{}` dynamic values this program
passes around. `voutput r` denotes a `pulumi.Output` whose eventually-resolved
value is `r`. `vdouble bits` carries a `float64` by its bit pattern. -/
inductive Val where
  | vnull
  | vstr (s : String)
  | vint (i : Int)
  | vdouble (bits : Nat)
  | vbool (b : Bool)
  | vbytes (bs : List UInt8)
  | vlist (xs : List Val)
  | vmap (fields : List (String × Val))
  | voutput (resolved : Val)

mutual

/-- Embeds `convertProtoValueToInterface` (the codec's `toNative` direction):
nil pointer and unknown oneof variants decode to nil; string/int64/float64/
bool/bytes decode to themselves; lists and maps decode element-wise. -/
def convertProtoValueToInterface : PBValue → Val
  | .null => .vnull
  | .pstring s => .vstr s
  | .pint i => .vint i
  | .pdouble bits => .vdouble bits
  | .pbool b => .vbool b
  | .pbytes bs => .vbytes bs
  | .plist values => .vlist (convertProtoValueToInterfaceList values)
  | .pmap fields => .vmap (convertProtoValueToInterfaceFields fields)
  | .punknown => .vnull

/-- Element-wise decoding of a `ListValue.Values` slice. -/
def convertProtoValueToInterfaceList : List PBValue → List Val
  | [] => []
  | v :: rest => convertProtoValueToInterface v :: convertProtoValueToInterfaceList rest

/-- Field-wise decoding of a `MapValue.Fields` map. -/
def convertProtoValueToInterfaceFields : List (String × PBValue) → List (String × Val)
  | [] => []
  | (k, v) :: rest =>
      (k, convertProtoValueToInterface v) :: convertProtoValueToInterfaceFields rest

end

/-- Stands for the string Go's `fmt.Sprintf` produces in the fallback arm of
`convertInterfaceToProtoValue` (reached only for native types outside the
dynamic-value union, such as `pulumi.Output`). No claim depends on the
produced text, only on the fact that the fallback encodes as a string. -/
def goFormatFallback : Val → String := fun _ => ""

mutual

/-- Embeds `convertInterfaceToProtoValue` (the codec's `toWire` direction):
nil encodes to a nil pointer; string/int64/float64/bool/bytes encode to the
matching oneof variant; lists and maps encode element-wise; any other native
type (here: a `pulumi.Output`) falls back to its `fmt` string representation. -/
def convertInterfaceToProtoValue : Val → PBValue
  | .vnull => .null
  | .vstr s => .pstring s
  | .vint i => .pint i
  | .vdouble bits => .pdouble bits
  | .vbool b => .pbool b
  | .vbytes bs => .pbytes bs
  | .vlist xs => .plist (convertInterfaceToProtoValueList xs)
  | .vmap fields => .pmap (convertInterfaceToProtoValueFields fields)
  | .voutput r => .pstring (goFormatFallback (.voutput r))

/-- Element-wise encoding of a slice. -/
def convertInterfaceToProtoValueList : List Val → List PBValue
  | [] => []
  | v :: rest => convertInterfaceToProtoValue v :: convertInterfaceToProtoValueList rest

/-- Field-wise encoding of a map. -/
def convertInterfaceToProtoValueFields : List (String × Val) → List (String × PBValue)
  | [] => []
  | (k, v) :: rest =>
      (k, convertInterfaceToProtoValue v) :: convertInterfaceToProtoValueFields rest

end

mutual

/-- Holds exactly when the value is built only of the wire-representable
variants: null, string, int64, float64, bool, bytes, and lists/maps of these
(no `pulumi.Output` anywhere inside). -/
def noOutputs : Val → Bool
  | .vnull | .vstr _ | .vint _ | .vdouble _ | .vbool _ | .vbytes _ => true
  | .vlist xs => noOutputsList xs
  | .vmap fields => noOutputsFields fields
  | .voutput _ => false

/-- List version of `noOutputs`. -/
def noOutputsList : List Val → Bool
  | [] => true
  | v :: rest => noOutputs v && noOutputsList rest

/-- Field version of `noOutputs`. -/
def noOutputsFields : List (String × Val) → Bool
  | [] => true
  | (_, v) :: rest => noOutputs v && noOutputsFields rest

end

mutual

/-- Round-trip helper: decoding after encoding is the identity on values
without unrepresentable native types. -/
theorem convertRoundTrip : ∀ v : Val, noOutputs v = true →
    convertProtoValueToInterface (convertInterfaceToProtoValue v) = v
  | .vnull, _ => rfl
  | .vstr _, _ => rfl
  | .vint _, _ => rfl
  | .vdouble _, _ => rfl
  | .vbool _, _ => rfl
  | .vbytes _, _ => rfl
  | .vlist xs, h => by
      simp only [convertInterfaceToProtoValue, convertProtoValueToInterface]
      exact congrArg Val.vlist (convertRoundTripList xs (by simpa [noOutputs] using h))
  | .vmap fields, h => by
      simp only [convertInterfaceToProtoValue, convertProtoValueToInterface]
      exact congrArg Val.vmap (convertRoundTripFields fields (by simpa [noOutputs] using h))
  | .voutput _, h => by simp [noOutputs] at h

/-- List version of `convertRoundTrip`. -/
theorem convertRoundTripList : ∀ xs : List Val, noOutputsList xs = true →
    convertProtoValueToInterfaceList (convertInterfaceToProtoValueList xs) = xs
  | [], _ => rfl
  | v :: rest, h => by
      have hv : noOutputs v = true := by
        simp [noOutputsList, Bool.and_eq_true] at h
        exact h.1
      have hrest : noOutputsList rest = true := by
        simp [noOutputsList, Bool.and_eq_true] at h
        exact h.2
      simp only [convertInterfaceToProtoValueList, convertProtoValueToInterfaceList]
      rw [convertRoundTrip v hv, convertRoundTripList rest hrest]

/-- Field version of `convertRoundTrip`. -/
theorem convertRoundTripFields : ∀ fields : List (String × Val), noOutputsFields fields = true →
    convertProtoValueToInterfaceFields (convertInterfaceToProtoValueFields fields) = fields
  | [], _ => rfl
  | (k, v) :: rest, h => by
      have hv : noOutputs v = true := by
        simp [noOutputsFields, Bool.and_eq_true] at h
        exact h.1
      have hrest : noOutputsFields rest = true := by
        simp [noOutputsFields, Bool.and_eq_true] at h
        exact h.2
      simp only [convertInterfaceToProtoValueFields, convertProtoValueToInterfaceFields]
      rw [convertRoundTrip v hv, convertRoundTripFields rest hrest]

end

/-- C2: for every DynamicValue built only of the representable variants (null,
string, int64, float64, bool, bytes, and lists/maps of these), converting to
the wire representation and back is the identity:
`convertProtoValueToInterface (convertInterfaceToProtoValue v) = v`. -/
theorem claim_C2_value_codec_roundtrip (v : Val) (h : noOutputs v = true) :
    convertProtoValueToInterface (convertInterfaceToProtoValue v) = v :=
  convertRoundTrip v h

/-- C2 witness: the round trip evaluated on a concrete nested value covering
every representable variant. -/
theorem claim_C2_value_codec_roundtrip_witness :
    noOutputs (.vmap [("a", .vlist [.vnull, .vstr "s", .vint (-7), .vdouble 4611686018427387904,
        .vbool true, .vbytes [0, 255]]), ("b", .vmap [("c", .vstr "x")])]) = true ∧
    convertProtoValueToInterface (convertInterfaceToProtoValue
      (.vmap [("a", .vlist [.vnull, .vstr "s", .vint (-7), .vdouble 4611686018427387904,
        .vbool true, .vbytes [0, 255]]), ("b", .vmap [("c", .vstr "x")])])) =
      (.vmap [("a", .vlist [.vnull, .vstr "s", .vint (-7), .vdouble 4611686018427387904,
        .vbool true, .vbytes [0, 255]]), ("b", .vmap [("c", .vstr "x")])]) :=
  ⟨rfl, claim_C2_value_codec_roundtrip _ rfl⟩

/-- Models a Go map read `m[key]` on the association-list representation:
first matching key wins (entries are consed in front on assignment, so the
first match is the most recent write). -/
def lookupStr : List (String × Val) → String → Option Val
  | [], _ => none
  | (k, v) :: rest, key => if k = key then some v else lookupStr rest key

/-- Character-level model of Go's `strings.Split(s, ".")`: splits at every
dot, keeping empty segments, and never returns an empty list. -/
def splitOnDotChars : List Char → List (List Char)
  | [] => [[]]
  | c :: cs =>
    if c = '.' then [] :: splitOnDotChars cs
    else
      match splitOnDotChars cs with
      | [] => [[c]]
      | seg :: segs => (c :: seg) :: segs

/-- Embeds `strings.Split(path, ".")` as used by the resolver. -/
def splitDots (s : String) : List String := (splitOnDotChars s.data).map String.mk

/-- Loop of `getNestedValue`: walk the dot-separated parts through nested
maps; yield the value at the last part, or nil when a part is absent or an
intermediate value is not a map. -/
def getNestedValueLoop : List (String × Val) → List String → Val
  | _, [] => .vnull
  | current, part :: rest =>
    match lookupStr current part with
    | some val =>
      match rest with
      | [] => val
      | _ :: _ =>
        match val with
        | .vmap nextMap => getNestedValueLoop nextMap rest
        | _ => .vnull
    | none => .vnull

/-- Embeds `getNestedValue(object, path)` from `program_factory.go`: extracts
a nested value from a map using dot notation, or nil if not found. -/
def getNestedValue (object : List (String × Val)) (path : String) : Val :=
  getNestedValueLoop object (splitDots path)

/-- Embeds the strategy-3 projection
`resourceOutput.(pulumi.MapOutput).ApplyT(func(m) { return getNestedValue(m, propertyPath) })`:
the deferred output applies `getNestedValue` to the resolved bag. The
executor stores only map-valued bags under bare resource names, so the
non-map arm (a Go type-assertion panic) is unreachable in program flow. -/
def mapOutputNestedProjection (resolved : Val) (propertyPath : String) : Val :=
  match resolved with
  | .vmap m => getNestedValue m propertyPath
  | _ => .vnull

/-- Parses one capture group of the reference pattern: the (required
nonempty) run of characters before the first occurrence of `stop`, and the
characters after that occurrence; `none` when `stop` is absent or the run is
empty. -/
def takeSeg (stop : Char) (l : List Char) : Option (List Char × List Char) :=
  let seg := l.takeWhile (fun c => c ≠ stop)
  match l.dropWhile (fun c => c ≠ stop) with
  | _ :: rest => if seg.isEmpty then none else some (seg, rest)
  | [] => none

/-- Attempts to match the regular expression `\$\{([^.]+)\.([^}]+)\}` at the
head of the character list. The parse is forced: after `${`, group 1 is the
(nonempty) run of non-dot characters up to the first dot, and group 2 is the
(nonempty) run of non-brace characters up to the first closing brace.
Returns the two capture groups and the remaining characters after the match. -/
def tryToken : List Char → Option (String × String × List Char)
  | '$' :: '{' :: rest =>
    match takeSeg '.' rest with
    | none => none
    | some (name, afterDot) =>
      match takeSeg '}' afterDot with
      | none => none
      | some (path, afterClose) => some (String.mk name, String.mk path, afterClose)
  | _ => none

/-- Helper: a successful `takeSeg` strictly consumes input. -/
theorem takeSeg_rest_length (stop : Char) (l : List Char) (seg rest : List Char)
    (h : takeSeg stop l = some (seg, rest)) : rest.length < l.length := by
  unfold takeSeg at h
  split at h
  · rename_i c r hdw
    simp only [] at h
    split at h
    · exact absurd h (by simp)
    · injection h with h1
      have hr : r = rest := congrArg Prod.snd h1
      subst hr
      have hle : (List.dropWhile (fun c => decide (c ≠ stop)) l).length ≤ l.length := by
        have := List.dropWhile_sublist (l := l) (p := fun c => decide (c ≠ stop))
        exact this.length_le
      rw [hdw] at hle
      simp only [List.length_cons] at hle
      omega
  · exact absurd h (by simp)

/-- Helper: a successful `tryToken` strictly consumes input, so fuel equal to
the input length suffices for the scan below. -/
theorem tryToken_rest_length : ∀ (l : List Char) (n p : String) (rest : List Char),
    tryToken l = some (n, p, rest) → rest.length < l.length := by
  intro l n p rest h
  unfold tryToken at h
  split at h
  · rename_i r
    cases h1 : takeSeg '.' r with
    | none => rw [h1] at h; exact absurd h (by simp)
    | some x =>
      obtain ⟨name, afterDot⟩ := x
      rw [h1] at h
      dsimp only [] at h
      cases h2 : takeSeg '}' afterDot with
      | none => rw [h2] at h; exact absurd h (by simp)
      | some y =>
        obtain ⟨path, afterClose⟩ := y
        rw [h2] at h
        dsimp only [] at h
        injection h with h3
        have hrest : afterClose = rest := congrArg (fun t => t.2.2) h3
        subst hrest
        have b1 := takeSeg_rest_length '.' r name afterDot h1
        have b2 := takeSeg_rest_length '}' afterDot path afterClose h2
        simp only [List.length_cons]
        omega
  · exact absurd h (by simp)

/-- Fuelled scan for all non-overlapping leftmost matches of the reference
pattern; scanning resumes after each match, or one character further on
failure. The fuel only serves termination: each step consumes at least one
character, so fuel equal to the input length never runs out. -/
def findTokensFuel : Nat → List Char → List (String × String)
  | 0, _ => []
  | _ + 1, [] => []
  | fuel + 1, c :: cs =>
    match tryToken (c :: cs) with
    | some (name, path, rest) => (name, path) :: findTokensFuel fuel rest
    | none => findTokensFuel fuel cs

/-- Embeds `re.FindAllStringSubmatch(v, -1)` for the reference pattern: the
list of `(resourceName, propertyPath)` capture pairs of all non-overlapping
matches, left to right. -/
def findTokens (s : String) : List (String × String) := findTokensFuel s.data.length s.data

/-- Helper: scanning the empty input yields no token for any fuel. -/
theorem findTokensFuel_nil : ∀ fuel, findTokensFuel fuel [] = []
  | 0 => rfl
  | _ + 1 => rfl

/-- Helper: the scan result does not depend on the fuel once the fuel covers
the input length, so `findTokens`'s choice of fuel is canonical. -/
theorem findTokensFuel_congr : ∀ (fuelA fuelB : Nat) (l : List Char),
    l.length ≤ fuelA → l.length ≤ fuelB →
    findTokensFuel fuelA l = findTokensFuel fuelB l := by
  intro fuelA
  induction fuelA with
  | zero =>
    intro fuelB l h1 h2
    have : l = [] := List.eq_nil_of_length_eq_zero (Nat.le_zero.mp h1)
    subst this
    rw [findTokensFuel_nil, findTokensFuel_nil]
  | succ f ih =>
    intro fuelB l h1 h2
    match l with
    | [] => rw [findTokensFuel_nil, findTokensFuel_nil]
    | c :: cs =>
      cases fuelB with
      | zero => exact absurd h2 (Nat.not_succ_le_zero _)
      | succ f2 =>
        simp only [findTokensFuel]
        simp only [List.length_cons] at h1 h2
        cases htt : tryToken (c :: cs) with
        | none => exact ih f2 cs (Nat.le_of_succ_le_succ h1) (Nat.le_of_succ_le_succ h2)
        | some t =>
          obtain ⟨n, p, rest⟩ := t
          have hlt := tryToken_rest_length _ _ _ _ htt
          simp only [List.length_cons] at hlt
          dsimp only []
          rw [ih f2 rest (by omega) (by omega)]

/-- Embeds the body of the per-match loop of `resolveValue`: strategy 1 looks
up the exact key `resourceName + "." + propertyPath`; strategy 2, when the
path has several dot-separated segments, looks up
`resourceName + "." + firstSegment`; strategy 3 looks up the whole-resource
output bag under `resourceName` and defers a nested projection. Returns
`none` when no strategy resolves. -/
def resolveMatchStrategies (resourceOutputs : List (String × Val))
    (resourceName propertyPath : String) : Option Val :=
  match lookupStr resourceOutputs (resourceName ++ "." ++ propertyPath) with
  | some output => some (.voutput output)
  | none =>
    let pathParts := splitDots propertyPath
    match (if pathParts.length > 1 then
        lookupStr resourceOutputs (resourceName ++ "." ++ pathParts.headD "")
      else none) with
    | some rootOutput => some (.voutput rootOutput)
    | none =>
      match lookupStr resourceOutputs resourceName with
      | some resourceOutput =>
          some (.voutput (mapOutputNestedProjection resourceOutput propertyPath))
      | none => none

/-- Embeds the `for _, match := range matches` loop of `resolveValue`: the
first match that resolves replaces the entire value; if no match resolves,
the original string is returned unchanged. -/
def resolveTokenLoop (orig : String) (resourceOutputs : List (String × Val)) :
    List (String × String) → Val
  | [] => .vstr orig
  | (resourceName, propertyPath) :: rest =>
    match resolveMatchStrategies resourceOutputs resourceName propertyPath with
    | some resolved => resolved
    | none => resolveTokenLoop orig resourceOutputs rest

mutual

/-- Embeds `resolveValue(value, resourceOutputs)` from `program_factory.go`:
strings are scanned for reference tokens (first resolving token wins, else
unchanged); maps and lists recurse; everything else passes through. -/
def resolveValue : Val → List (String × Val) → Val
  | .vstr s, resourceOutputs =>
    match findTokens s with
    | [] => .vstr s
    | m :: rest => resolveTokenLoop s resourceOutputs (m :: rest)
  | .vmap fields, resourceOutputs => .vmap (resolveValueFields fields resourceOutputs)
  | .vlist xs, resourceOutputs => .vlist (resolveValueList xs resourceOutputs)
  | v, _ => v

/-- Element-wise resolution inside a slice. -/
def resolveValueList : List Val → List (String × Val) → List Val
  | [], _ => []
  | x :: xs, resourceOutputs =>
      resolveValue x resourceOutputs :: resolveValueList xs resourceOutputs

/-- Field-wise resolution inside a map. -/
def resolveValueFields : List (String × Val) → List (String × Val) → List (String × Val)
  | [], _ => []
  | (k, v) :: rest, resourceOutputs =>
      (k, resolveValue v resourceOutputs) :: resolveValueFields rest resourceOutputs

end

/-- Embeds `resolveReferences(properties, resourceOutputs)`: resolves every
property value independently. -/
def resolveReferences (properties : List (String × Val))
    (resourceOutputs : List (String × Val)) : List (String × Val) :=
  resolveValueFields properties resourceOutputs

/-- Helper: if no match resolves through any strategy, the per-match loop
falls through and the original string is returned. -/
theorem resolveTokenLoop_unresolved (orig : String) (resourceOutputs : List (String × Val)) :
    ∀ ts : List (String × String),
      (∀ t ∈ ts, resolveMatchStrategies resourceOutputs t.1 t.2 = none) →
      resolveTokenLoop orig resourceOutputs ts = .vstr orig
  | [], _ => rfl
  | (r, p) :: rest, h => by
      have hr := h (r, p) (List.mem_cons_self _ _)
      have hrest := resolveTokenLoop_unresolved orig resourceOutputs rest
        (fun t ht => h t (List.mem_cons_of_mem _ ht))
      simp only [resolveTokenLoop, hr, hrest]

/-- Helper: the per-match loop skips any prefix of unresolvable matches and
returns the value of the first match that resolves. -/
theorem resolveTokenLoop_first_resolving (orig : String)
    (resourceOutputs : List (String × Val)) :
    ∀ (pre : List (String × String)) (r p : String) (rest : List (String × String)) (v : Val),
      (∀ t ∈ pre, resolveMatchStrategies resourceOutputs t.1 t.2 = none) →
      resolveMatchStrategies resourceOutputs r p = some v →
      resolveTokenLoop orig resourceOutputs (pre ++ (r, p) :: rest) = v
  | [], r, p, rest, v, _, hsome => by
      simp only [List.nil_append, resolveTokenLoop, hsome]
  | (q1, q2) :: qs, r, p, rest, v, hpre, hsome => by
      have hq := hpre (q1, q2) (List.mem_cons_self _ _)
      have hrest := resolveTokenLoop_first_resolving orig resourceOutputs qs r p rest v
        (fun t ht => hpre t (List.mem_cons_of_mem _ ht)) hsome
      simp only [List.cons_append, resolveTokenLoop, hq]
      exact hrest

/-- Helper: a key absent from the association list looks up to `none`. -/
theorem lookupStr_eq_none : ∀ (m : List (String × Val)) (key : String),
    (∀ k ∈ m.map Prod.fst, k ≠ key) → lookupStr m key = none
  | [], _, _ => rfl
  | (k, v) :: rest, key, h => by
      have hk : k ≠ key := h k (by simp)
      have hrest := lookupStr_eq_none rest key (fun k' hk' => h k' (by simp [hk']))
      simp only [lookupStr, if_neg hk, hrest]

/-- Helper: when every stored output key differs from the token's resource
name and from every dotted extension of it, no strategy resolves. -/
theorem resolveMatchStrategies_eq_none (resourceOutputs : List (String × Val))
    (r p : String)
    (h : ∀ k ∈ resourceOutputs.map Prod.fst, k ≠ r ∧ ∀ tail, k ≠ r ++ "." ++ tail) :
    resolveMatchStrategies resourceOutputs r p = none := by
  have h1 : lookupStr resourceOutputs (r ++ "." ++ p) = none :=
    lookupStr_eq_none _ _ (fun k hk => (h k hk).2 p)
  have h2 : lookupStr resourceOutputs (r ++ "." ++ (splitDots p).headD "") = none :=
    lookupStr_eq_none _ _ (fun k hk => (h k hk).2 ((splitDots p).headD ""))
  have h3 : lookupStr resourceOutputs r = none :=
    lookupStr_eq_none _ _ (fun k hk => (h k hk).1)
  simp only [resolveMatchStrategies, h1, h2, h3, ite_self]

/-- C1 counterexample: a string with literal surrounding text around a token
whose strategy-1 key is stored is NOT returned unchanged — the whole value
becomes the resolved output, silently discarding the literal text. -/
theorem claim_C1_counterexample :
    resolveValue (.vstr "x${r.id}y") [("r.id", .vstr "ID")] = .voutput (.vstr "ID") ∧
    resolveValue (.vstr "x${r.id}y") [("r.id", .vstr "ID")] ≠ .vstr "x${r.id}y" :=
  ⟨rfl, fun h => Val.noConfusion h⟩

/-- C1 (amended): for a string property containing at least one reference
token, if no token resolves against the stored outputs then `resolveValue`
returns the original string unchanged; if the first token resolves, the whole
value becomes that token's resolved output — even when literal surrounding
text is present, which is discarded. -/
theorem claim_C1_unresolved_string_unchanged (s : String) (resourceOutputs : List (String × Val))
    (_hne : findTokens s ≠ []) :
    ((∀ t ∈ findTokens s, resolveMatchStrategies resourceOutputs t.1 t.2 = none) →
        resolveValue (.vstr s) resourceOutputs = .vstr s) ∧
    (∀ pre r p rest v, findTokens s = pre ++ (r, p) :: rest →
        (∀ t ∈ pre, resolveMatchStrategies resourceOutputs t.1 t.2 = none) →
        resolveMatchStrategies resourceOutputs r p = some v →
        resolveValue (.vstr s) resourceOutputs = v) := by
  constructor
  · intro hall
    simp only [resolveValue]
    match hts : findTokens s with
    | [] => rfl
    | t :: rest =>
        rw [hts] at hall
        exact resolveTokenLoop_unresolved s resourceOutputs (t :: rest) hall
  · intro pre r p rest v hts hpre hsome
    have hloop := resolveTokenLoop_first_resolving s resourceOutputs pre r p rest v hpre hsome
    cases pre with
    | nil =>
        simp only [List.nil_append] at hts hloop
        simp only [resolveValue, hts]
        exact hloop
    | cons q qs =>
        simp only [List.cons_append] at hts hloop
        simp only [resolveValue, hts]
        exact hloop

/-- C1 witness: both branches of the amended claim evaluated concretely — an
unresolvable token (empty output store) leaves `"x${q.id}y"` unchanged, and
in `"${a.x}${b.y}"` with only `"b.y"` stored the first token is skipped as
unresolvable and the whole value becomes the second token's output. -/
theorem claim_C1_unresolved_string_unchanged_witness :
    resolveValue (.vstr "x${q.id}y") [] = .vstr "x${q.id}y" ∧
    resolveValue (.vstr "${a.x}${b.y}") [("b.y", .vint 1)] = .voutput (.vint 1) :=
  ⟨(claim_C1_unresolved_string_unchanged "x${q.id}y" [] (fun h => List.noConfusion h)).1
      (fun t ht => by
        rw [show findTokens "x${q.id}y" = [("q", "id")] from rfl, List.mem_singleton] at ht
        subst ht
        rfl),
   (claim_C1_unresolved_string_unchanged "${a.x}${b.y}" [("b.y", .vint 1)]
      (fun h => List.noConfusion h)).2 [("a", "x")] "b" "y" [] (.voutput (.vint 1)) rfl
      (fun t ht => by
        rw [List.mem_singleton] at ht
        subst ht
        rfl)
      rfl⟩

/-- C4: when strategies 1 and 2 fail for the first token of the string and a
whole-resource bag `m` is stored under the token's resource name, the result
is the deferred projection of `getNestedValue` over `m` at the token's
dot-separated path. -/
theorem claim_C4_whole_bag_nested_projection (s : String) (resourceOutputs : List (String × Val))
    (r p : String) (rest : List (String × String)) (m : List (String × Val))
    (htok : findTokens s = (r, p) :: rest)
    (h1 : lookupStr resourceOutputs (r ++ "." ++ p) = none)
    (h2 : lookupStr resourceOutputs (r ++ "." ++ (splitDots p).headD "") = none)
    (h3 : lookupStr resourceOutputs r = some (.vmap m)) :
    resolveValue (.vstr s) resourceOutputs = .voutput (getNestedValue m p) := by
  have hstrat : resolveMatchStrategies resourceOutputs r p =
      some (.voutput (getNestedValue m p)) := by
    simp only [resolveMatchStrategies, h1, h2, h3, ite_self, mapOutputNestedProjection]
  simp only [resolveValue, htok, resolveTokenLoop, hstrat]

/-- C4 witness: with the bag `{"a": {"b": "x"}}` stored under `"r"`,
`${r.a.b}` resolves to the deferred value `"x"` and `${r.a.c}` resolves to a
deferred null, not an error. -/
theorem claim_C4_whole_bag_nested_projection_witness :
    resolveValue (.vstr "${r.a.b}") [("r", .vmap [("a", .vmap [("b", .vstr "x")])])]
      = .voutput (.vstr "x") ∧
    resolveValue (.vstr "${r.a.c}") [("r", .vmap [("a", .vmap [("b", .vstr "x")])])]
      = .voutput .vnull := by
  constructor
  · have h := claim_C4_whole_bag_nested_projection "${r.a.b}"
      [("r", .vmap [("a", .vmap [("b", .vstr "x")])])] "r" "a.b" []
      [("a", .vmap [("b", .vstr "x")])] rfl rfl rfl rfl
    rw [h]
    rfl
  · have h := claim_C4_whole_bag_nested_projection "${r.a.c}"
      [("r", .vmap [("a", .vmap [("b", .vstr "x")])])] "r" "a.c" []
      [("a", .vmap [("b", .vstr "x")])] rfl rfl rfl rfl
    rw [h]
    rfl

/-- C5: a reference token whose resource name matches no stored output key —
neither as a bare name nor extended by a dot (the shape of every key the
executor ever stores for a registered resource) — leaves the string value
literal and unexpanded; resolution is total and raises no error. -/
theorem claim_C5_unregistered_reference_left_literal (s : String)
    (resourceOutputs : List (String × Val))
    (h : ∀ t ∈ findTokens s, ∀ k ∈ resourceOutputs.map Prod.fst,
        k ≠ t.1 ∧ ∀ tail, k ≠ t.1 ++ "." ++ tail) :
    resolveValue (.vstr s) resourceOutputs = .vstr s := by
  simp only [resolveValue]
  match hts : findTokens s with
  | [] => rfl
  | t :: rest =>
      rw [hts] at h
      exact resolveTokenLoop_unresolved s resourceOutputs (t :: rest)
        (fun t' ht' => resolveMatchStrategies_eq_none _ _ _ (h t' ht'))

/-- C5 witness: `${B.id}` with only resource `A` registered (keys `"A"` and
`"A.id"`) stays the literal string. -/
theorem claim_C5_unregistered_reference_left_literal_witness :
    resolveValue (.vstr "${B.id}") [("A", .vnull), ("A.id", .vstr "a-id")]
      = .vstr "${B.id}" := by
  apply claim_C5_unregistered_reference_left_literal
  intro t ht k hk
  rw [show findTokens "${B.id}" = [("B", "id")] from rfl, List.mem_singleton] at ht
  subst ht
  simp only [List.map_cons, List.map_nil, List.mem_cons, List.not_mem_nil, or_false] at hk
  rcases hk with hk | hk
  · subst hk
    refine ⟨by decide, fun tail hEq => ?_⟩
    have h2 : ['A'] = 'B' :: '.' :: tail.data := congrArg String.data hEq
    exact absurd (List.cons.inj h2).1 (by decide)
  · subst hk
    refine ⟨by decide, fun tail hEq => ?_⟩
    have h2 : ['A', '.', 'i', 'd'] = 'B' :: '.' :: tail.data := congrArg String.data hEq
    exact absurd (List.cons.inj h2).1 (by decide)

/-- Resource description submitted by the caller (`pb.Resource`). -/
structure Resource where
  type : String
  name : String
  properties : List (String × PBValue)
  dependsOn : List String
  provider : String

/-- Embeds `pb.ResourceMetadata` as synthesized by the deployment program. -/
structure ResourceMetadata where
  op : String
  urn : String
  resType : String
  isNew : Bool

/-- Embeds `pb.Event`: the tagged union of event payloads the engine emits. -/
inductive Ev where
  | prelude (config : List (String × String))
  | diagnostic (severity message : String)
  | resourcePre (metadata : ResourceMetadata) (planning : Bool)
  | resourceOutputs (metadata : ResourceMetadata) (planning : Bool)
  | resourceFailed (metadata : ResourceMetadata) (status steps : Int)
  | summaryEv (mayChange : Bool) (durationSeconds : Int) (resourceChanges : List (String × Int))

/-- Builds the metadata the program attaches to every lifecycle event:
`op="create"`, a URN synthesized as
`urn:pulumi::<stack>::<project>::<type>::<name>`, and `New=true`. -/
def mkResourceMeta (stackName projectName : String) (res : Resource) : ResourceMetadata :=
  { op := "create"
    urn := "urn:pulumi::" ++ stackName ++ "::" ++ projectName ++ "::" ++ res.type
      ++ "::" ++ res.name
    resType := res.type
    isNew := true }

/-- Oracle for the provisioning engine's `ctx.RegisterResource` capability:
given the loop index, the resource description, its converted and resolved
inputs, and the explicit dependency names found so far, it returns either the
provisioned identity (the value `resource.ID()` resolves to) or an error. -/
def RegisterOracle : Type :=
  Nat → Resource → List (String × Val) → List String → Except String Val

mutual

/-- Embeds `convertInterfaceToPulumiValue`: wraps plain native values as
Pulumi input types and passes existing inputs through. In this denotation the
wrappers (`pulumi.String`, `pulumi.Float64`, `pulumi.Bool`, `pulumi.Array`,
`pulumi.Map`, and the `pulumi.Any` fallback for the remaining dynamic
variants) carry the same value, so each arm returns its payload unchanged;
the structure mirrors the Go switch. -/
def convertInterfaceToPulumiValue : Val → Val
  | .vstr s => .vstr s
  | .vdouble bits => .vdouble bits
  | .vbool b => .vbool b
  | .vlist xs => .vlist (convertInterfaceToPulumiValueList xs)
  | .vmap fields => .vmap (convertInterfaceToPulumiValueFields fields)
  | .voutput r => .voutput r
  | v => v

/-- Element-wise wrapping inside `pulumi.Array`. -/
def convertInterfaceToPulumiValueList : List Val → List Val
  | [] => []
  | x :: xs => convertInterfaceToPulumiValue x :: convertInterfaceToPulumiValueList xs

/-- Field-wise wrapping inside `pulumi.Map`. -/
def convertInterfaceToPulumiValueFields : List (String × Val) → List (String × Val)
  | [] => []
  | (k, v) :: rest =>
      (k, convertInterfaceToPulumiValue v) :: convertInterfaceToPulumiValueFields rest

end

/-- Steps 1-3 of the per-resource loop: convert protobuf properties to native
values, resolve references against the outputs collected so far, and convert
the resolved values to Pulumi inputs. -/
def resourceInputs (resourceOutputs : List (String × Val)) (res : Resource) :
    List (String × Val) :=
  convertInterfaceToPulumiValueFields
    (resolveReferences (convertProtoValueToInterfaceFields res.properties) resourceOutputs)

/-- Step 4 of the per-resource loop: explicit `dependsOn` names are kept when
already registered this loop; unknown names degrade to a printed warning and
are dropped. -/
def resourceDeps (resourceMap : List String) (res : Resource) : List String :=
  res.dependsOn.filter (fun depName => resourceMap.contains depName)

/-- Embeds the `resourceAllOutputs` bag built after a successful
registration: all raw input properties converted to native values, plus the
provisioning identity under `"id"`. The Go code assigns `outputMap["id"]`
last, overwriting an input property named `"id"`; consing the pair in front
realizes that overwrite under first-match lookup. -/
def buildOutputBag (properties : List (String × PBValue)) (idVal : Val) :
    List (String × Val) :=
  ("id", idVal) :: convertProtoValueToInterfaceFields properties

/-- Mutable state of the deployment program's loop: the `resourceMap` of
registered names and the `resourceOutputs` store keyed by `name` and
`name + ".id"`. -/
structure ExecState where
  resourceMap : List String
  resourceOutputs : List (String × Val)

/-- Embeds one iteration of the per-resource loop of
`createDeploymentProgram`: emit `ResourcePre`; convert, resolve and wrap the
properties; register the resource; on error emit `ResourceFailed` (status 1,
steps 0) and abort with the error; on success emit `ResourceOutputs` and
store the identity under `name + ".id"` and the whole-resource bag under
`name`. -/
def registerStep (register : RegisterOracle) (stackName projectName : String) (idx : Nat)
    (st : ExecState) (res : Resource) : List Ev × Except String ExecState :=
  let meta := mkResourceMeta stackName projectName res
  let inputs := resourceInputs st.resourceOutputs res
  let deps := resourceDeps st.resourceMap res
  match register idx res inputs deps with
  | .error e => ([.resourcePre meta false, .resourceFailed meta 1 0], .error e)
  | .ok idVal =>
      ([.resourcePre meta false, .resourceOutputs meta false],
       .ok { resourceMap := res.name :: st.resourceMap
             resourceOutputs :=
               (res.name, .vmap (buildOutputBag res.properties idVal)) ::
               (res.name ++ ".id", idVal) :: st.resourceOutputs })

/-- Embeds the `for _, res := range resources` loop: resources are processed
strictly in submission order; a failed registration aborts the whole program
with that error and no later resource is touched. -/
def deploymentLoop (register : RegisterOracle) (stackName projectName : String) :
    Nat → ExecState → List Resource → List Ev × Except String Unit
  | _, _, [] => ([], .ok ())
  | idx, st, res :: rest =>
    match registerStep register stackName projectName idx st res with
    | (evs, .error e) => (evs, .error e)
    | (evs, .ok st') =>
        let r := deploymentLoop register stackName projectName (idx + 1) st' rest
        (evs ++ r.1, r.2)

/-- Embeds `createDeploymentProgram(resources)`: the pure program closure
that, when the engine invokes it, runs the per-resource loop from an empty
state and returns the emitted event trace plus the program's result. -/
def createDeploymentProgram (register : RegisterOracle) (stackName projectName : String)
    (resources : List Resource) : List Ev × Except String Unit :=
  deploymentLoop register stackName projectName 0 ⟨[], []⟩ resources

/-- Embeds `pb.OutputItem`. -/
structure OutputItem where
  resourceName : String
  outputName : String
  value : PBValue

/-- Embeds `pb.PulumiResponse`. -/
structure PulumiResponse where
  success : Bool
  error : String
  outputs : List OutputItem

/-- Response struct built by `createFailedResponse`: `success=false`, the
error text, and an empty output list. -/
def mkFailedResponse (e : String) : PulumiResponse :=
  { success := false, error := e, outputs := [] }

/-- Response struct built by `createOkResponse`: `success=true` and the given
outputs (the error field stays at its zero value). -/
def mkOkResponse (outputs : List OutputItem) : PulumiResponse :=
  { success := true, error := "", outputs := outputs }

/-- Embeds the four prefix bytes written by the framing code:
`byte(len)`, `byte(len >> 8)`, `byte(len >> 16)`, `byte(len >> 24)`
(Go's `byte(·)` truncates modulo 256, which `UInt8.ofNat` reproduces). -/
def lenPrefixLE (n : Nat) : List UInt8 :=
  [UInt8.ofNat n, UInt8.ofNat (n >>> 8), UInt8.ofNat (n >>> 16), UInt8.ofNat (n >>> 24)]

/-- Embeds the shared envelope: a 4-byte little-endian length prefix followed
by the payload bytes. -/
def frameBytes (payload : List UInt8) : List UInt8 :=
  lenPrefixLE payload.length ++ payload

/-- Reads a 4-byte little-endian unsigned prefix back as a number (the
consumer side of the envelope, used to state what the prefix encodes). -/
def decodeLE4 (bs : List UInt8) : Nat :=
  match bs with
  | [b0, b1, b2, b3] => b0.toNat + 256 * b1.toNat + 65536 * b2.toNat + 16777216 * b3.toNat
  | _ => 0

/-- Embeds `createFailedResponse(err)`: build the failed response, marshal it
(`marshal` is the `proto.Marshal` oracle; `none` models a marshal error whose
bytes come back nil — the error itself is discarded by the Go code), and
frame the resulting payload. -/
def createFailedResponse (marshal : PulumiResponse → Option (List UInt8)) (e : String) :
    List UInt8 :=
  frameBytes ((marshal (mkFailedResponse e)).getD [])

/-- Embeds `createOkResponse(outputs)`: build the successful response,
marshal it (errors discarded as in the source), and frame the payload. -/
def createOkResponse (marshal : PulumiResponse → Option (List UInt8))
    (outputs : List OutputItem) : List UInt8 :=
  frameBytes ((marshal (mkOkResponse outputs)).getD [])

/-- Embeds `emitEvent(event)`: returns the framed buffer handed to the host
callback, or `none` when no callback is registered or when serialization
fails (in which case the Go code returns early and the event is silently
dropped — no error propagates). -/
def emitEvent (callbackRegistered : Bool) (marshalEvent : Ev → Option (List UInt8))
    (event : Ev) : Option (List UInt8) :=
  if callbackRegistered = false then none
  else
    match marshalEvent event with
    | none => none
    | some eventBytes => some (frameBytes eventBytes)

/-- Embeds `pb.PulumiRequest`. -/
structure PulumiRequest where
  projectName : String
  stackName : String
  resources : List Resource

/-- Embeds `processPulumiRequest(request, length, isDryRun)` up to its first
effect: `proto.Unmarshal` (the `decode` oracle) either fails — producing a
failed response carrying the decode error text, with no event emitted — or
succeeds, after which the working-directory setup, stack upsert, refresh and
preview/up phases run against the external engine (abstracted as `run`). -/
def processPulumiRequest (decode : List UInt8 → Except String PulumiRequest)
    (marshal : PulumiResponse → Option (List UInt8))
    (run : Bool → PulumiRequest → List UInt8 × List Ev)
    (requestBytes : List UInt8) (isDryRun : Bool) : List UInt8 × List Ev :=
  match decode requestBytes with
  | .error e => (createFailedResponse marshal e, [])
  | .ok request => run isDryRun request

/-- Embeds the exported `PulumiDynamicPreview`: `processPulumiRequest` with
`isDryRun = true`. -/
def PulumiDynamicPreview (decode : List UInt8 → Except String PulumiRequest)
    (marshal : PulumiResponse → Option (List UInt8))
    (run : Bool → PulumiRequest → List UInt8 × List Ev)
    (requestBytes : List UInt8) : List UInt8 × List Ev :=
  processPulumiRequest decode marshal run requestBytes true

/-- Embeds the exported `PulumiDynamicDeploy`: `processPulumiRequest` with
`isDryRun = false`. -/
def PulumiDynamicDeploy (decode : List UInt8 → Except String PulumiRequest)
    (marshal : PulumiResponse → Option (List UInt8))
    (run : Bool → PulumiRequest → List UInt8 × List Ev)
    (requestBytes : List UInt8) : List UInt8 × List Ev :=
  processPulumiRequest decode marshal run requestBytes false

/-- Embeds the exported `PulumiDynamicDestroy`: decode the request (failure
produces a failed response and no events); on success select the stack and
destroy it against the external engine (abstracted as `run`). -/
def PulumiDynamicDestroy (decode : List UInt8 → Except String PulumiRequest)
    (marshal : PulumiResponse → Option (List UInt8))
    (run : PulumiRequest → List UInt8 × List Ev)
    (requestBytes : List UInt8) : List UInt8 × List Ev :=
  match decode requestBytes with
  | .error e => (createFailedResponse marshal e, [])
  | .ok request => run request

/-- Embeds the exported `PulumiDynamicGetOutputs`: decode the request
(failure produces a failed response and no events); on success select the
stack and read its outputs against the external engine (abstracted as
`run`). -/
def PulumiDynamicGetOutputs (decode : List UInt8 → Except String PulumiRequest)
    (marshal : PulumiResponse → Option (List UInt8))
    (run : PulumiRequest → List UInt8 × List Ev)
    (requestBytes : List UInt8) : List UInt8 × List Ev :=
  match decode requestBytes with
  | .error e => (createFailedResponse marshal e, [])
  | .ok request => run request

/-- Outputs assembled by `previewStack` on success: items named `stdout`,
`stderr` and `summary`, all under resource name `"stack"`. -/
def previewResponseOutputs (stdOut stdErr : String) (changeSummary : Val) : List OutputItem :=
  [⟨"stack", "stdout", convertInterfaceToProtoValue (.vstr stdOut)⟩,
   ⟨"stack", "stderr", convertInterfaceToProtoValue (.vstr stdErr)⟩,
   ⟨"stack", "summary", convertInterfaceToProtoValue changeSummary⟩]

/-- Outputs assembled by `deployStack` on success: items named `stdout`,
`stderr`, `outputs` (the exported stack outputs) and `summary`. -/
def deployResponseOutputs (stdOut stdErr : String) (stackOutputs : Val)
    (summaryMessage summaryResult : String) : List OutputItem :=
  [⟨"stack", "stdout", convertInterfaceToProtoValue (.vstr stdOut)⟩,
   ⟨"stack", "stderr", convertInterfaceToProtoValue (.vstr stdErr)⟩,
   ⟨"stack", "outputs", convertInterfaceToProtoValue stackOutputs⟩,
   ⟨"stack", "summary", convertInterfaceToProtoValue
      (.vmap [("message", .vstr summaryMessage), ("result", .vstr summaryResult)])⟩]

/-- Outputs assembled by `PulumiDynamicDestroy` on success: items named
`stdout`, `stderr` and `summary`. -/
def destroyResponseOutputs (stdOut stdErr summaryMessage summaryResult : String) :
    List OutputItem :=
  [⟨"stack", "stdout", convertInterfaceToProtoValue (.vstr stdOut)⟩,
   ⟨"stack", "stderr", convertInterfaceToProtoValue (.vstr stdErr)⟩,
   ⟨"stack", "summary", convertInterfaceToProtoValue
      (.vmap [("message", .vstr summaryMessage), ("result", .vstr summaryResult)])⟩]

/-- Outputs assembled by `PulumiDynamicGetOutputs` on success: one item per
exported stack output, named by that output's own name. -/
def getOutputsResponseItems (stackOutputs : List (String × Val)) : List OutputItem :=
  stackOutputs.map (fun nv => ⟨"stack", nv.1, convertInterfaceToProtoValue nv.2⟩)

/-- Expected trace of a successfully processed resource: `ResourcePre` then
`ResourceOutputs`. -/
def successTrace (stackName projectName : String) (r : Resource) : List Ev :=
  [.resourcePre (mkResourceMeta stackName projectName r) false,
   .resourceOutputs (mkResourceMeta stackName projectName r) false]

/-- Expected trace of a resource whose registration fails: `ResourcePre` then
`ResourceFailed`. -/
def failureTrace (stackName projectName : String) (r : Resource) : List Ev :=
  [.resourcePre (mkResourceMeta stackName projectName r) false,
   .resourceFailed (mkResourceMeta stackName projectName r) 1 0]

/-- Helper for C3, generalized over the starting index and loop state: when
every registration strictly before relative position `k` succeeds and the one
at position `k` fails with `err`, the loop's trace is the success trace of
each earlier resource followed by the failure trace of resource `k`, and the
loop aborts with `err`. -/
theorem deploymentLoop_failfast (register : RegisterOracle) (stackName projectName : String)
    (err : String) :
    ∀ (k : Nat) (resources : List Resource) (idx : Nat) (st : ExecState)
      (hk : k < resources.length),
      (∀ i, i < k → ∀ res ins deps, ∃ v, register (idx + i) res ins deps = .ok v) →
      (∀ res ins deps, register (idx + k) res ins deps = .error err) →
      deploymentLoop register stackName projectName idx st resources =
        (((resources.take k).map (successTrace stackName projectName)).flatten ++
            failureTrace stackName projectName (resources.get ⟨k, hk⟩),
         .error err) := by
  intro k
  induction k with
  | zero =>
    intro resources idx st hk hok hfail
    match resources, hk with
    | res :: rest, _ =>
      have hf := hfail res (resourceInputs st.resourceOutputs res)
        (resourceDeps st.resourceMap res)
      rw [Nat.add_zero] at hf
      simp only [deploymentLoop, registerStep, hf]
      rfl
  | succ k ih =>
    intro resources idx st hk hok hfail
    match resources, hk with
    | res :: rest, hk2 =>
      obtain ⟨v, hv⟩ := hok 0 (Nat.succ_pos k) res (resourceInputs st.resourceOutputs res)
        (resourceDeps st.resourceMap res)
      rw [Nat.add_zero] at hv
      have hstep : registerStep register stackName projectName idx st res =
          ([.resourcePre (mkResourceMeta stackName projectName res) false,
            .resourceOutputs (mkResourceMeta stackName projectName res) false],
           .ok ⟨res.name :: st.resourceMap,
                (res.name, .vmap (buildOutputBag res.properties v)) ::
                (res.name ++ ".id", v) :: st.resourceOutputs⟩) := by
        simp only [registerStep, hv]
      have hk' : k < rest.length := Nat.lt_of_succ_lt_succ hk2
      have hok' : ∀ i, i < k → ∀ r ins deps, ∃ w, register (idx + 1 + i) r ins deps = .ok w := by
        intro i hi r ins deps
        have : idx + 1 + i = idx + (i + 1) := by omega
        rw [this]
        exact hok (i + 1) (Nat.succ_lt_succ hi) r ins deps
      have hfail' : ∀ r ins deps, register (idx + 1 + k) r ins deps = .error err := by
        intro r ins deps
        have : idx + 1 + k = idx + (k + 1) := by omega
        rw [this]
        exact hfail r ins deps
      have ih' := ih rest (idx + 1)
        ⟨res.name :: st.resourceMap,
         (res.name, .vmap (buildOutputBag res.properties v)) ::
         (res.name ++ ".id", v) :: st.resourceOutputs⟩ hk' hok' hfail'
      simp only [deploymentLoop, hstep, ih', List.take_succ_cons, List.map_cons,
        List.flatten_cons, List.append_assoc, List.get, successTrace]

/-- C3: if all registrations before index `k` succeed and the registration at
index `k` fails with `err`, the deployment program emits exactly
`ResourcePre`/`ResourceOutputs` for each index before `k`, then
`ResourcePre`/`ResourceFailed` for index `k`, emits nothing for any later
index, and returns the registration error; a failed Response built from that
error has `success = false`. -/
theorem claim_C3_failfast_partial_commit (register : RegisterOracle)
    (stackName projectName err : String) (resources : List Resource) (k : Nat)
    (hk : k < resources.length)
    (hok : ∀ i, i < k → ∀ res ins deps, ∃ v, register i res ins deps = .ok v)
    (hfail : ∀ res ins deps, register k res ins deps = .error err) :
    createDeploymentProgram register stackName projectName resources =
      (((resources.take k).map (successTrace stackName projectName)).flatten ++
          failureTrace stackName projectName (resources.get ⟨k, hk⟩),
       .error err) ∧
    (mkFailedResponse err).success = false := by
  refine ⟨?_, rfl⟩
  have hok0 : ∀ i, i < k → ∀ res ins deps, ∃ v, register (0 + i) res ins deps = .ok v := by
    intro i hi res ins deps
    rw [Nat.zero_add]
    exact hok i hi res ins deps
  have hfail0 : ∀ res ins deps, register (0 + k) res ins deps = .error err := by
    intro res ins deps
    rw [Nat.zero_add]
    exact hfail res ins deps
  exact deploymentLoop_failfast register stackName projectName err k resources 0 ⟨[], []⟩
    hk hok0 hfail0

/-- C3 witness: four propertyless resources, registration failing at index 2:
the trace is Pre/Outputs for indices 0 and 1, Pre/Failed for index 2, nothing
for index 3, and the program returns the error. -/
theorem claim_C3_failfast_partial_commit_witness :
    createDeploymentProgram
        (fun i _ _ _ => if i < 2 then Except.ok (Val.vstr "id") else Except.error "boom")
        "s" "p"
        [⟨"t", "a", [], [], ""⟩, ⟨"t", "b", [], [], ""⟩,
         ⟨"t", "c", [], [], ""⟩, ⟨"t", "d", [], [], ""⟩] =
      ([.resourcePre ⟨"create", "urn:pulumi::s::p::t::a", "t", true⟩ false,
        .resourceOutputs ⟨"create", "urn:pulumi::s::p::t::a", "t", true⟩ false,
        .resourcePre ⟨"create", "urn:pulumi::s::p::t::b", "t", true⟩ false,
        .resourceOutputs ⟨"create", "urn:pulumi::s::p::t::b", "t", true⟩ false,
        .resourcePre ⟨"create", "urn:pulumi::s::p::t::c", "t", true⟩ false,
        .resourceFailed ⟨"create", "urn:pulumi::s::p::t::c", "t", true⟩ 1 0],
       .error "boom") := by
  have h := claim_C3_failfast_partial_commit
    (fun i _ _ _ => if i < 2 then Except.ok (Val.vstr "id") else Except.error "boom")
    "s" "p" "boom"
    [⟨"t", "a", [], [], ""⟩, ⟨"t", "b", [], [], ""⟩,
     ⟨"t", "c", [], [], ""⟩, ⟨"t", "d", [], [], ""⟩] 2
    (by decide)
    (fun i hi res ins deps => ⟨Val.vstr "id", if_pos hi⟩)
    (fun res ins deps => rfl)
  rw [h.1]
  rfl

/-- Models reading the Go `res.Properties` map. -/
def lookupPBFields : List (String × PBValue) → String → Option PBValue
  | [], _ => none
  | (k, v) :: rest, key => if k = key then some v else lookupPBFields rest key

/-- Helper: looking up a key in the converted property map is the converted
lookup in the raw property map. -/
theorem lookupStr_convertFields : ∀ (props : List (String × PBValue)) (key : String),
    lookupStr (convertProtoValueToInterfaceFields props) key =
      (lookupPBFields props key).map convertProtoValueToInterface
  | [], _ => rfl
  | (k, v) :: rest, key => by
      simp only [convertProtoValueToInterfaceFields, lookupStr, lookupPBFields]
      by_cases h : k = key
      · simp [h]
      · simp [h, lookupStr_convertFields rest key]

/-- C10: after a successful registration the step stores, under the
resource's name, a whole-resource bag that maps `"id"` to the provisioning
identity and every other key to the converted input property of that key
(absent keys stay absent — the bag holds exactly the input keys plus `"id"`,
with the identity overwriting an input property named `"id"`); resolving the
path `"id"` through the bag always yields the identity. The step also stores
the identity under `name + ".id"`. -/
theorem claim_C10_output_bag_contents (register : RegisterOracle)
    (stackName projectName : String) (idx : Nat) (st : ExecState) (res : Resource)
    (idVal : Val)
    (hreg : register idx res (resourceInputs st.resourceOutputs res)
        (resourceDeps st.resourceMap res) = .ok idVal) :
    registerStep register stackName projectName idx st res =
      ([.resourcePre (mkResourceMeta stackName projectName res) false,
        .resourceOutputs (mkResourceMeta stackName projectName res) false],
       .ok ⟨res.name :: st.resourceMap,
            (res.name, .vmap (buildOutputBag res.properties idVal)) ::
            (res.name ++ ".id", idVal) :: st.resourceOutputs⟩) ∧
    lookupStr (buildOutputBag res.properties idVal) "id" = some idVal ∧
    (∀ key, key ≠ "id" →
      lookupStr (buildOutputBag res.properties idVal) key =
        (lookupPBFields res.properties key).map convertProtoValueToInterface) ∧
    getNestedValue (buildOutputBag res.properties idVal) "id" = idVal := by
  have hid : lookupStr (buildOutputBag res.properties idVal) "id" = some idVal := by
    simp [buildOutputBag, lookupStr]
  refine ⟨?_, hid, ?_, ?_⟩
  · simp only [registerStep, hreg]
  · intro key hkey
    simp only [buildOutputBag, lookupStr]
    rw [if_neg (Ne.symm hkey)]
    exact lookupStr_convertFields res.properties key
  · simp only [getNestedValue]
    rw [show splitDots "id" = ["id"] from rfl]
    simp only [getNestedValueLoop, hid]

/-- C10 witness: a resource with an input property named `"id"` (value
`"user-id"`) and one named `"size"`; the stored bag yields the provisioning
identity `"prov-id"` for `"id"`, the converted input for `"size"`, and
nothing for an absent key. -/
theorem claim_C10_output_bag_contents_witness :
    lookupStr (buildOutputBag [("id", .pstring "user-id"), ("size", .pint 5)]
        (.vstr "prov-id")) "id" = some (.vstr "prov-id") ∧
    lookupStr (buildOutputBag [("id", .pstring "user-id"), ("size", .pint 5)]
        (.vstr "prov-id")) "size" = some (.vint 5) ∧
    lookupStr (buildOutputBag [("id", .pstring "user-id"), ("size", .pint 5)]
        (.vstr "prov-id")) "missing" = none ∧
    getNestedValue (buildOutputBag [("id", .pstring "user-id"), ("size", .pint 5)]
        (.vstr "prov-id")) "id" = .vstr "prov-id" := by
  have h := claim_C10_output_bag_contents (fun _ _ _ _ => Except.ok (Val.vstr "prov-id"))
    "s" "p" 0 ⟨[], []⟩
    ⟨"t", "r", [("id", .pstring "user-id"), ("size", .pint 5)], [], ""⟩
    (Val.vstr "prov-id") rfl
  exact ⟨h.2.1,
    (h.2.2.1 "size" (by decide)).trans rfl,
    (h.2.2.1 "missing" (by decide)).trans rfl,
    h.2.2.2⟩

/-- C6: when the request bytes fail protobuf decoding, each of the four
boundary operations returns exactly the framed failed Response carrying the
decode error text — `success = false`, the error string equal to the decode
error (hence non-empty) — and emits zero events. -/
theorem claim_C6_decode_error_failed_response
    (decode : List UInt8 → Except String PulumiRequest)
    (marshal : PulumiResponse → Option (List UInt8))
    (runPD : Bool → PulumiRequest → List UInt8 × List Ev)
    (runDestroy runGetOutputs : PulumiRequest → List UInt8 × List Ev)
    (requestBytes : List UInt8) (e : String)
    (hdec : decode requestBytes = .error e) (hne : e ≠ "") :
    PulumiDynamicPreview decode marshal runPD requestBytes
      = (createFailedResponse marshal e, []) ∧
    PulumiDynamicDeploy decode marshal runPD requestBytes
      = (createFailedResponse marshal e, []) ∧
    PulumiDynamicDestroy decode marshal runDestroy requestBytes
      = (createFailedResponse marshal e, []) ∧
    PulumiDynamicGetOutputs decode marshal runGetOutputs requestBytes
      = (createFailedResponse marshal e, []) ∧
    (mkFailedResponse e).success = false ∧
    (mkFailedResponse e).error = e ∧
    (mkFailedResponse e).error ≠ "" ∧
    createFailedResponse marshal e = frameBytes ((marshal (mkFailedResponse e)).getD []) := by
  refine ⟨?_, ?_, ?_, ?_, rfl, rfl, hne, rfl⟩
  · simp only [PulumiDynamicPreview, processPulumiRequest, hdec]
  · simp only [PulumiDynamicDeploy, processPulumiRequest, hdec]
  · simp only [PulumiDynamicDestroy, hdec]
  · simp only [PulumiDynamicGetOutputs, hdec]

/-- C6 witness: concretely malformed bytes (a decoder rejecting them with
`"unmarshal: truncated"`) produce the framed failed Response and no events on
the Preview path, with `success = false`. -/
theorem claim_C6_decode_error_failed_response_witness :
    PulumiDynamicPreview (fun _ => Except.error "unmarshal: truncated")
        (fun _ => some [7, 7]) (fun _ _ => ([], [.prelude []])) [0] =
      (frameBytes [7, 7], []) ∧
    (mkFailedResponse "unmarshal: truncated").success = false := by
  have h := claim_C6_decode_error_failed_response
    (fun _ => Except.error "unmarshal: truncated") (fun _ => some [7, 7])
    (fun _ _ => ([], [.prelude []])) (fun _ => ([], [])) (fun _ => ([], []))
    [0] "unmarshal: truncated" rfl (by decide)
  exact ⟨h.1.trans rfl, h.2.2.2.2.1⟩

/-- C7 counterexample: a successful GetOutputs invocation over a stack whose
only exported output is named `"endpoint"` produces exactly one item, named
`"endpoint"` — not the fixed `stdout`/`stderr`/`summary` set the claim
asserts for GetOutputs. -/
theorem claim_C7_counterexample :
    (getOutputsResponseItems [("endpoint", .vstr "https")]).map
        (fun item => item.outputName) = ["endpoint"] ∧
    ¬ ("stdout" ∈ (getOutputsResponseItems [("endpoint", .vstr "https")]).map
        (fun item => item.outputName)) :=
  ⟨rfl, by decide⟩

/-- C7 (amended): Preview and Destroy each produce exactly the OutputItems
named `stdout`, `stderr`, `summary`; Deploy produces `stdout`, `stderr`,
`outputs`, `summary`; GetOutputs instead produces one item per exported stack
output, named by that output's own name. -/
theorem claim_C7_fixed_output_items :
    (∀ stdOut stdErr changeSummary,
      (previewResponseOutputs stdOut stdErr changeSummary).map (fun item => item.outputName)
        = ["stdout", "stderr", "summary"]) ∧
    (∀ stdOut stdErr summaryMessage summaryResult,
      (destroyResponseOutputs stdOut stdErr summaryMessage summaryResult).map
          (fun item => item.outputName)
        = ["stdout", "stderr", "summary"]) ∧
    (∀ stdOut stdErr stackOutputs summaryMessage summaryResult,
      (deployResponseOutputs stdOut stdErr stackOutputs summaryMessage summaryResult).map
          (fun item => item.outputName)
        = ["stdout", "stderr", "outputs", "summary"]) ∧
    (∀ stackOutputs, (getOutputsResponseItems stackOutputs).map (fun item => item.outputName)
        = stackOutputs.map Prod.fst) := by
  refine ⟨fun _ _ _ => rfl, fun _ _ _ _ => rfl, fun _ _ _ _ _ => rfl, fun stackOutputs => ?_⟩
  simp [getOutputsResponseItems]

/-- C8: the envelope of every boundary message is a 4-byte little-endian
length prefix that decodes back to the payload's byte length (for any payload
under 2^32 bytes — `proto.Marshal` can never produce more), followed by
exactly the payload; `createOkResponse`, `createFailedResponse` and
`emitEvent` all produce exactly this envelope around their marshaled
payload. -/
theorem claim_C8_length_prefix_framing (payload : List UInt8)
    (h : payload.length < 4294967296) :
    frameBytes payload = lenPrefixLE payload.length ++ payload ∧
    (lenPrefixLE payload.length).length = 4 ∧
    decodeLE4 (lenPrefixLE payload.length) = payload.length ∧
    (∀ marshal outputs bytes, marshal (mkOkResponse outputs) = some bytes →
        createOkResponse marshal outputs = frameBytes bytes) ∧
    (∀ marshal e bytes, marshal (mkFailedResponse e) = some bytes →
        createFailedResponse marshal e = frameBytes bytes) ∧
    (∀ marshalEvent event bytes, marshalEvent event = some bytes →
        emitEvent true marshalEvent event = some (frameBytes bytes)) := by
  refine ⟨rfl, rfl, ?_, ?_, ?_, ?_⟩
  · have h0 : ∀ n : Nat, (UInt8.ofNat n).toNat = n % 256 := fun _ => rfl
    simp only [lenPrefixLE, decodeLE4, h0, Nat.shiftRight_eq_div_pow]
    omega
  · intro marshal outputs bytes hm
    simp [createOkResponse, hm]
  · intro marshal e bytes hm
    simp [createFailedResponse, hm]
  · intro marshalEvent event bytes hm
    simp [emitEvent, hm]

/-- C8 witness: a 3-byte payload frames as `[3,0,0,0]` followed by the
payload, and the prefix decodes back to 3. -/
theorem claim_C8_length_prefix_framing_witness :
    decodeLE4 (lenPrefixLE ([1, 2, 3] : List UInt8).length) = 3 ∧
    frameBytes ([1, 2, 3] : List UInt8) = [3, 0, 0, 0, 1, 2, 3] :=
  ⟨(claim_C8_length_prefix_framing [1, 2, 3] (by decide)).2.2.1, rfl⟩

/-- C9: when `proto.Marshal` fails on the way out, the error is swallowed: a
Response is still produced as a framed empty payload (the 4 zero prefix
bytes), and an Event is silently dropped — `emitEvent` performs no callback
invocation and propagates nothing. -/
theorem claim_C9_marshal_error_swallowed (marshal : PulumiResponse → Option (List UInt8))
    (marshalEvent : Ev → Option (List UInt8)) (outputs : List OutputItem) (e : String)
    (event : Ev) (callbackRegistered : Bool)
    (hok : marshal (mkOkResponse outputs) = none)
    (hfail : marshal (mkFailedResponse e) = none)
    (hev : marshalEvent event = none) :
    createOkResponse marshal outputs = frameBytes [] ∧
    createFailedResponse marshal e = frameBytes [] ∧
    frameBytes [] = [0, 0, 0, 0] ∧
    emitEvent callbackRegistered marshalEvent event = none := by
  refine ⟨?_, ?_, rfl, ?_⟩
  · simp [createOkResponse, hok]
  · simp [createFailedResponse, hfail]
  · cases callbackRegistered with
    | false => simp [emitEvent]
    | true => simp [emitEvent, hev]

/-- C9 witness: a marshal oracle that always fails still yields the framed
empty Response `[0,0,0,0]` and drops the event without error. -/
theorem claim_C9_marshal_error_swallowed_witness :
    createOkResponse (fun _ => none) [] = [0, 0, 0, 0] ∧
    createFailedResponse (fun _ => none) "err" = [0, 0, 0, 0] ∧
    emitEvent true (fun _ => none) (.prelude []) = none := by
  have h := claim_C9_marshal_error_swallowed (fun _ => none) (fun _ => none) [] "err"
    (.prelude []) true rfl rfl rfl
  exact ⟨h.1.trans h.2.2.1, h.2.1.trans h.2.2.1, h.2.2.2⟩

end Pulumist
